import Mathlib

/-!
Verification development for the rasm16 assembler (Go package `assemble`,
files `src_to_struct.go`, `process_struct.go`, `struct_to_bin.go`).

The embedding below translates the assembler's functions into Lean.  Strings
are Lean `String`s, but every operation is implemented over the underlying
`List Char` so that all definitions reduce in the kernel.  Go byte slices are
modelled as `List Nat` with every element kept below 256 by construction
(`% 256` is written wherever Go's `byte` arithmetic could truncate).  Go's
`error` results are modelled with `Except String`.  Go maps used as lookup
tables are modelled as association lists in source listing order; only
lookups and inserts of fresh keys are performed on them, so iteration-order
randomness of Go maps is not observable in the modelled programs, except in
`expandConsts` where the substitution loop iterates over the table (the
modelled programs each contain at most one constant occurrence per line, for
which any order gives the same result).

One piece of mutable global state is modelled explicitly: the package-level
map `defaultConsts`.  In Go, `getConsts` executes `consts := defaultConsts`,
which copies the map *reference*, so every user constant it inserts is
inserted into the package-level map itself and survives the assembly run.
All functions that touch this map therefore take the current table as an
argument and return the table as it is left afterwards.
-/

namespace Rasm16

/-! ### Character classes used by the Go regular expressions -/

/-- The character class of Go's regexp `\s`, i.e. `[\t\n\f\r ]`. -/
def isGoRegexSpace (c : Char) : Bool :=
  c == ' ' || c == '\t' || c == '\n' || c == '\x0c' || c == '\r'

/-- The ASCII part of `unicode.IsSpace`, used by `strings.TrimSpace`. -/
def isGoTrimSpace (c : Char) : Bool :=
  isGoRegexSpace c || c == '\x0b'

/-- The character class `[\w.]` (Go regexp `\w` is `[0-9A-Za-z_]`). -/
def isWordDotChar (c : Char) : Bool :=
  c.isAlphanum || c == '_' || c == '.'

/-! ### Go string primitives -/

/-- `strings.TrimSpace`. -/
def goTrimSpace (s : String) : String :=
  ⟨((s.data.dropWhile isGoTrimSpace).reverse.dropWhile isGoTrimSpace).reverse⟩

/-- Whether a Go-style `s[:1] == t` check for a one-character `t` holds. -/
def startsWithChar (s : String) (c : Char) : Bool :=
  s.data.head? == some c

/-- `strings.Split s dlm` for a one-character delimiter. -/
def goSplitAux (dlm : Char) : List Char → List Char → List String
  | [], acc => [⟨acc.reverse⟩]
  | c :: cs, acc =>
      if c == dlm then ⟨acc.reverse⟩ :: goSplitAux dlm cs []
      else goSplitAux dlm cs (c :: acc)

/-- `strings.Split s dlm` for a one-character delimiter. -/
def goSplit (s : String) (dlm : Char) : List String :=
  goSplitAux dlm s.data []

/-- `strings.SplitN s dlm 2` for a one-character delimiter. -/
def goSplitN2 (s : String) (dlm : Char) : List String :=
  let pre := s.data.takeWhile (fun c => c != dlm)
  if pre.length == s.data.length then [s]
  else [⟨pre⟩, ⟨s.data.drop (pre.length + 1)⟩]

/-- One scan step list for `strings.Replace s old new -1` (replace all,
left to right, non-overlapping).  The fuel is the length of the scanned
list; each step consumes at least one character. -/
def goReplaceAllAux (old new : List Char) : Nat → List Char → List Char
  | _, [] => []
  | 0, s => s
  | fuel+1, c :: cs =>
      if !old.isEmpty && old.isPrefixOf (c :: cs) then
        new ++ goReplaceAllAux old new fuel ((c :: cs).drop old.length)
      else
        c :: goReplaceAllAux old new fuel cs

/-- `strings.Replace s old new -1` (all occurrences).  The modelled callers
never pass an empty `old`. -/
def goReplaceAll (s old new : String) : String :=
  ⟨goReplaceAllAux old.data new.data s.data.length s.data⟩

/-- Scan for `strings.Replace s old new 1` (first occurrence only). -/
def goReplace1Aux (old new : List Char) : Nat → List Char → List Char
  | _, [] => []
  | 0, s => s
  | fuel+1, c :: cs =>
      if !old.isEmpty && old.isPrefixOf (c :: cs) then
        new ++ (c :: cs).drop old.length
      else
        c :: goReplace1Aux old new fuel cs

/-- `strings.Replace s old new 1` (first occurrence only). -/
def goReplace1 (s old new : String) : String :=
  ⟨goReplace1Aux old.data new.data s.data.length s.data⟩

/-- `strings.ToUpper` on one ASCII character. -/
def goUpperChar (c : Char) : Char :=
  if 97 ≤ c.toNat ∧ c.toNat ≤ 122 then Char.ofNat (c.toNat - 32) else c

/-- `strings.ToUpper` (the modelled sources are ASCII). -/
def goToUpper (s : String) : String :=
  ⟨s.data.map goUpperChar⟩

/-- `strings.Join l sep`. -/
def goJoin : List String → String → String
  | [], _ => ""
  | [s], _ => s
  | s :: rest, sep => s ++ sep ++ goJoin rest sep

/-! ### Go numeric formatting and parsing -/

/-- Lowercase hexadecimal digit character, as used by `fmt.Sprintf "%x"`. -/
def hexDigitChar (n : Nat) : Char :=
  if n < 10 then Char.ofNat (48 + n) else Char.ofNat (87 + n)

/-- Uppercase hexadecimal digit character. -/
def hexDigitCharUpper (n : Nat) : Char :=
  if n < 10 then Char.ofNat (48 + n) else Char.ofNat (55 + n)

/-- Most-significant-first hexadecimal digits of `n`.  The fuel bounds the
number of digits; 16 digits cover every value a Go `int64`/`uint64` holds. -/
def hexDigitsAux : Nat → Nat → List Nat
  | 0, n => [n % 16]
  | fuel+1, n => if n < 16 then [n] else hexDigitsAux fuel (n / 16) ++ [n % 16]

/-- `fmt.Sprintf "%x" n`: minimal-width lowercase hexadecimal. -/
def sprintfHex (n : Nat) : String :=
  ⟨(hexDigitsAux 16 n).map hexDigitChar⟩

/-- `fmt.Sprintf "%04x" n`: lowercase hexadecimal, zero-padded to at least
four digits. -/
def sprintf04x (n : Nat) : String :=
  let ds := hexDigitsAux 16 n
  ⟨(List.replicate (4 - ds.length) 0 ++ ds).map hexDigitChar⟩

/-- Value of one hexadecimal digit character (`[0-9a-fA-F]`), if any. -/
def hexDigitVal (c : Char) : Option Nat :=
  if 48 ≤ c.toNat ∧ c.toNat ≤ 57 then some (c.toNat - 48)
  else if 97 ≤ c.toNat ∧ c.toNat ≤ 102 then some (c.toNat - 87)
  else if 65 ≤ c.toNat ∧ c.toNat ≤ 70 then some (c.toNat - 55)
  else none

/-- Whether a character is in `[0-9A-Fa-f]`. -/
def isHexDigitChar (c : Char) : Bool :=
  (hexDigitVal c).isSome

/-- Accumulating hexadecimal evaluation; `none` on the first non-hex
character. -/
def hexValAux (acc : Nat) : List Char → Option Nat
  | [] => some acc
  | c :: cs =>
      match hexDigitVal c with
      | some d => hexValAux (16 * acc + d) cs
      | none => none

/-- `strconv.ParseUint s 16 bits` with the error reduced to a flag: Go
returns `(0, err)` on a syntax error (empty string or non-hex character) and
`(2^bits − 1, err)` on range overflow, and the assembler ignores `err` and
uses the returned value.  The first component is that value, the second is
`true` exactly when Go returns a nil error. -/
def goParseUint (s : String) (bits : Nat) : Nat × Bool :=
  match s.data with
  | [] => (0, false)
  | cs =>
      match hexValAux 0 cs with
      | none => (0, false)
      | some v => if v < 2 ^ bits then (v, true) else (2 ^ bits - 1, false)

/-- Value of one decimal digit character, if any. -/
def decDigitVal (c : Char) : Option Nat :=
  if 48 ≤ c.toNat ∧ c.toNat ≤ 57 then some (c.toNat - 48) else none

/-- Accumulating decimal evaluation; `none` on the first non-digit. -/
def decValAux (acc : Nat) : List Char → Option Nat
  | [] => some acc
  | c :: cs =>
      match decDigitVal c with
      | some d => decValAux (10 * acc + d) cs
      | none => none

/-- Decimal value of a non-empty digit string. -/
def decVal? : List Char → Option Nat
  | [] => none
  | cs => decValAux 0 cs

/-- `strconv.Atoi`: optional sign, then decimal digits; errors (modelled as
`none`) on the empty string, a stray character, or a value outside the
signed 64-bit range. -/
def goAtoi (s : String) : Option Int :=
  match s.data with
  | [] => none
  | '+' :: rest =>
      match decVal? rest with
      | some v => if v ≤ 9223372036854775807 then some (Int.ofNat v) else none
      | none => none
  | '-' :: rest =>
      match decVal? rest with
      | some v => if v ≤ 9223372036854775808 then some (-(v : Int)) else none
      | none => none
  | cs =>
      match decVal? cs with
      | some v => if v ≤ 9223372036854775807 then some (Int.ofNat v) else none
      | none => none

/-! ### Preprocessor constant table (`process_struct.go`)

`ConstTable` models the package-level Go map `defaultConsts` as an
association list in source listing order.  `getConsts` aliases this map, so
the table value threaded through the pipeline *is* the package-level map's
current state. -/

/-- The state of the package-level constant map. -/
abbrev ConstTable := List (String × String)

/-- Go map lookup `tbl[name]` returning presence. -/
def constFind (tbl : ConstTable) (name : String) : Option String :=
  (tbl.find? (fun p => p.1 == name)).map (·.2)

/-- Go map read `tbl[name]` (zero value `""` when absent). -/
def constGet (tbl : ConstTable) (name : String) : String :=
  (constFind tbl name).getD ""

/-- The built-in preprocessor constant definitions (`defaultConsts`). -/
def defaultConsts : ConstTable := [
  ("[SP]", "FFB0"), ("[IO]", "FFB2"), ("[PC]", "FFB4"), ("[ST]", "FFB6"),
  ("[UN0]", "FFB8"), ("[UN1]", "FFBA"), ("[UN2]", "FFBC"), ("[UN3]", "FFBE"),
  ("[IRQ0]", "FFC0"), ("[IRQ1]", "FFC2"), ("[IRQ2]", "FFC4"), ("[IRQ3]", "FFC6"),
  ("[IRQ4]", "FFC8"), ("[IRQ5]", "FFCA"), ("[IRQ6]", "FFCC"), ("[IRQ7]", "FFCE"),
  ("[IN0]", "FFD0"), ("[IN1]", "FFD2"), ("[IN2]", "FFD4"), ("[IN3]", "FFD6"),
  ("[IN4]", "FFD8"), ("[IN5]", "FFDA"), ("[IN6]", "FFDC"), ("[IN7]", "FFDE"),
  ("[OUT0]", "FFE0"), ("[OUT1]", "FFE2"), ("[OUT2]", "FFE4"), ("[OUT3]", "FFE6"),
  ("[OUT4]", "FFE8"), ("[OUT5]", "FFEA"), ("[OUT6]", "FFEC"), ("[OUT7]", "FFEE"),
  ("[GP0]", "FFF0"), ("[GP0L]", "FFF1"), ("[GP1]", "FFF2"), ("[GP1L]", "FFF3"),
  ("[GP2]", "FFF4"), ("[GP2L]", "FFF5"), ("[GP3]", "FFF6"), ("[GP3L]", "FFF7"),
  ("[GP4]", "FFF8"), ("[GP4L]", "FFF9"), ("[GP5]", "FFFA"), ("[GP5L]", "FFFB"),
  ("[GP6]", "FFFC"), ("[GP6L]", "FFFD"), ("[GP7]", "FFFE"), ("[GP7L]", "FFFF"),
  ("[TRUE]", "0001"), ("[FALSE]", "FFFF"), ("[NULL]", "0000")]

/-! ### Regular-expression helpers of the preprocessor -/

/-- Index of the last occurrence of `c` in `cs`, if any. -/
def lastIdxOf (c : Char) (cs : List Char) : Option Nat :=
  match cs.reverse.findIdx? (· == c) with
  | none => none
  | some k => some (cs.length - 1 - k)

/-- `regexp \[.+\]` `FindString`: RE2 finds the leftmost starting position,
which must hold `[` and be followed (at distance at least two) by some `]`;
the greedy `.+` then extends the match to the last `]` of the line.  Returns
`""` when there is no match, as Go does. -/
def findConstName (s : String) : String :=
  match s.data.findIdx? (· == '['), lastIdxOf ']' s.data with
  | some i, some k => if i + 2 ≤ k then ⟨(s.data.drop i).take (k - i + 1)⟩ else ""
  | _, _ => ""

/-- `regexp \].+` `FindString`: from the first `]` that has at least one
character after it, greedily to the end of the line; `""` when no match. -/
def findConstValue (s : String) : String :=
  match s.data.findIdx? (· == ']') with
  | some i => if i + 1 < s.data.length then ⟨s.data.drop i⟩ else ""
  | none => ""

/-- One maximal `[\w.]` run at the head of the list. -/
def wordDotRun (cs : List Char) : List Char :=
  cs.takeWhile isWordDotChar

/-- Minimum number of characters allowed in a source label. -/
def srcLabelMinLen : Nat := 5

/-- `regexp ([\w.]{5,})` `FindString`: the first maximal `[\w.]` run of
length at least five, or `""`. -/
def getOpLabelAux : Nat → List Char → List Char
  | 0, _ => []
  | _, [] => []
  | fuel+1, c :: cs =>
      if isWordDotChar c then
        let run := wordDotRun (c :: cs)
        if srcLabelMinLen ≤ run.length then run
        else getOpLabelAux fuel ((c :: cs).drop run.length)
      else getOpLabelAux fuel cs

/-- `getOpLabel` finds a source label in an operand. -/
def getOpLabel (op : String) : String :=
  ⟨getOpLabelAux op.data.length op.data⟩

/-- `regexp ([\w.]{5,})` `ReplaceAllStringFunc`, specialised to the
namespacer's callback: every maximal `[\w.]` run of length at least five is
kept if it already contains `.` and otherwise prefixed with `ns.`. -/
def nsRewriteAux (ns : List Char) : Nat → List Char → List Char
  | 0, s => s
  | _, [] => []
  | fuel+1, c :: cs =>
      if isWordDotChar c then
        let run := wordDotRun (c :: cs)
        let rest := (c :: cs).drop run.length
        (if srcLabelMinLen ≤ run.length then
          (if run.contains '.' then run else ns ++ '.' :: run)
         else run) ++ nsRewriteAux ns fuel rest
      else c :: nsRewriteAux ns fuel cs

/-! ### Preprocessor stages (`process_struct.go`) -/

/-- `regexp #.*` `ReplaceAllLiteralString _ ""`: everything from the first
`#` to the end of the line is removed. -/
def stripComment (cs : List Char) : List Char :=
  cs.takeWhile (· != '#')

/-- `regexp [\s\p{Zs}]{2,}` `ReplaceAllLiteralString _ " "`: every maximal
run of two or more whitespace characters becomes one space. -/
def collapseWsAux : Nat → List Char → List Char
  | 0, s => s
  | _, [] => []
  | fuel+1, c :: cs =>
      if isGoRegexSpace c then
        let run := (c :: cs).takeWhile isGoRegexSpace
        if 2 ≤ run.length then ' ' :: collapseWsAux fuel ((c :: cs).drop run.length)
        else c :: collapseWsAux fuel cs
      else c :: collapseWsAux fuel cs

/-- `cleanSrc` removes comments and extraneous whitespace from the source. -/
def cleanSrc (srcLines : List String) : List String :=
  srcLines.map (fun l =>
    let cs := stripComment l.data
    goTrimSpace ⟨collapseWsAux cs.length cs⟩)

/-- `getConsts` finds non-default preprocessor constants.  Because the Go
function aliases the package-level map, each insert also acts on the global
table; both components of the result describe the same map object, the
first as the function result (or error) and the second as the state the
global map is left in. -/
def getConstsAux (lineNum : Nat) (tbl : ConstTable) :
    List String → Except String ConstTable × ConstTable
  | [] => (.ok tbl, tbl)
  | line :: rest =>
      if !line.data.isEmpty && startsWithChar line '[' then
        let constName := findConstName line
        if (constFind tbl constName).isSome then
          (.error (toString (lineNum + 1) ++ ": Cannot redefine preprocessor constant "
            ++ constName), tbl)
        else
          let constValue := goTrimSpace ⟨(findConstValue line).data.drop 1⟩
          getConstsAux (lineNum + 1) (tbl ++ [(constName, constValue)]) rest
      else getConstsAux (lineNum + 1) tbl rest

/-- `getConsts` (see `getConstsAux`). -/
def getConsts (srcLines : List String) (tbl : ConstTable) :
    Except String ConstTable × ConstTable :=
  getConstsAux 0 tbl srcLines

/-- The substitution loop of `expandConsts` on one line: each table entry's
name is textually replaced by its value. -/
def expandLineConsts (tbl : ConstTable) (line : String) : String :=
  tbl.foldl (fun l p => goReplaceAll l p.1 p.2) line

/-- The per-line pass of `expandConsts` (after `getConsts` has run). -/
def expandConstsAux (tbl : ConstTable) (lineNum : Nat) :
    List String → Except String (List String)
  | [] => .ok []
  | line :: rest =>
      if !line.data.isEmpty then
        if !startsWithChar line '[' then
          let expandedLine := expandLineConsts tbl line
          let foundUnmatched := findConstName expandedLine
          if foundUnmatched != "" then
            .error (toString (lineNum + 1) ++ ": Preprocessor constant "
              ++ foundUnmatched ++ " not defined")
          else (expandConstsAux tbl (lineNum + 1) rest).map (expandedLine :: ·)
        else (expandConstsAux tbl (lineNum + 1) rest).map ("" :: ·)
      else (expandConstsAux tbl (lineNum + 1) rest).map (line :: ·)

/-- `expandConsts` translates preprocessor constants to their values,
threading the package-level constant map (see `getConsts`). -/
def expandConsts (srcLines : List String) (tbl : ConstTable) :
    Except String (List String) × ConstTable :=
  match getConsts srcLines tbl with
  | (.error e, tbl2) => (.error e, tbl2)
  | (.ok expandedConsts, tbl2) => (expandConstsAux expandedConsts 0 srcLines, tbl2)

/-- The namespace of a source or include file name: everything before the
first `.` (`strings.SplitN srcName "." 2`, first component). -/
def namespaceOf (srcName : String) : String :=
  ⟨srcName.data.takeWhile (· != '.')⟩

/-- `addSrcLabelNamespaces` prefixes labels with the file's namespace. -/
def addSrcLabelNamespaces (srcLines : List String) (srcName : String) : List String :=
  let ns := namespaceOf srcName
  srcLines.map (fun line =>
    if !line.data.isEmpty && !startsWithChar line '<' && !startsWithChar line '$' then
      ⟨nsRewriteAux ns.data line.data.length line.data⟩
    else line)

/-- `hasInclude` checks whether any line is an include directive. -/
def hasInclude (srcLines : List String) : Bool :=
  srcLines.any (fun l => !l.data.isEmpty && startsWithChar l '<')

/-- `addIncludes` splices include files in, each independently cleaned,
constant-expanded (threading the constant map) and namespaced.  Reading an
include file's raw lines is host I/O, passed in as `reader`. -/
def addIncludesAux (reader : String → Except String (List String)) :
    List String → ConstTable → Except String (List String) × ConstTable
  | [], tbl => (.ok [], tbl)
  | line :: rest, tbl =>
      if !line.data.isEmpty && startsWithChar line '<' then
        let incName := goTrimSpace ⟨line.data.drop 1⟩ ++ "._rasm"
        match reader incName with
        | .error e => (.error e, tbl)
        | .ok rawIncLines =>
            let rawIncLines := cleanSrc rawIncLines
            match expandConsts rawIncLines tbl with
            | (.error e, tbl2) => (.error e, tbl2)
            | (.ok incLines, tbl2) =>
                if hasInclude incLines then
                  (.error ("Inc file " ++ incName ++ " cannot contain includes of its own"),
                   tbl2)
                else
                  let incLines := addSrcLabelNamespaces incLines incName
                  match addIncludesAux reader rest tbl2 with
                  | (.error e, tbl3) => (.error e, tbl3)
                  | (.ok restLines, tbl3) => (.ok (incLines ++ restLines), tbl3)
      else
        match addIncludesAux reader rest tbl with
        | (.error e, tbl2) => (.error e, tbl2)
        | (.ok restLines, tbl2) => (.ok (line :: restLines), tbl2)

/-- `addIncludes` (see `addIncludesAux`). -/
def addIncludes (reader : String → Except String (List String))
    (srcLines : List String) (tbl : ConstTable) :
    Except String (List String) × ConstTable :=
  addIncludesAux reader srcLines tbl

/-- `isSrcLabel` checks whether a line is a source label: at least
`srcLabelMinLen` characters, all matching `^[\w.]+$`. -/
def isSrcLabel (srcLine : String) : Bool :=
  decide (srcLabelMinLen ≤ srcLine.data.length)
    && (!srcLine.data.isEmpty && srcLine.data.all isWordDotChar)

/-- `hasDupeSrcLabels` scans the expanded source for duplicate labels,
returning the flag, the offending label and its 0-based line number. -/
def hasDupeSrcLabelsAux (seen : List String) (lineNum : Nat) :
    List String → Bool × String × Nat
  | [] => (false, "", 0)
  | line :: rest =>
      if !line.data.isEmpty && isSrcLabel line then
        if seen.contains line then (true, line, lineNum)
        else hasDupeSrcLabelsAux (line :: seen) (lineNum + 1) rest
      else hasDupeSrcLabelsAux seen (lineNum + 1) rest

/-- `hasDupeSrcLabels` (see `hasDupeSrcLabelsAux`). -/
def hasDupeSrcLabels (srcLines : List String) : Bool × String × Nat :=
  hasDupeSrcLabelsAux [] 0 srcLines

/-! ### Structured source (`src_to_struct.go`) -/

/-- Operand type definitions. -/
inductive opType where
  | invalidOp
  | addressOp
  | literalOp
  | pointerOp
deriving DecidableEq

/-- Structured source line definition (`srcLine`).  `bin` is the encoded
byte list, each entry kept below 256 by construction. -/
structure srcLine where
  lineNum : Nat
  label : String
  address : Nat
  mnemonic : String
  op1Type : opType
  op1 : String
  op2Type : opType
  op2 : String
  data : String
  bin : List Nat
deriving DecidableEq

/-- `getOpType` determines the type of an operand from its leading sigil
(`$` literal, `*` pointer, otherwise address; empty operand invalid). -/
def getOpType (op : String) : opType :=
  match op.data with
  | [] => .invalidOp
  | c :: _ =>
      if c == '$' then .literalOp
      else if c == '*' then .pointerOp
      else .addressOp

/-- `splitOp` breaks an operand into type and sigil-stripped value. -/
def splitOp (op : String) : opType × String :=
  let cleanOp := goTrimSpace op
  match getOpType cleanOp with
  | .literalOp => (.literalOp, ⟨cleanOp.data.drop 1⟩)
  | .pointerOp => (.pointerOp, ⟨cleanOp.data.drop 1⟩)
  | t => (t, cleanOp)

/-- `splitSrcCodeLine` breaks a non-data line into mnemonic and raw
operands (split on the first space, then the first comma). -/
def splitSrcCodeLine (srcLine : String) : String × String × String :=
  match goSplitN2 srcLine ' ' with
  | [m] => (m, "", "")
  | m :: ops :: _ =>
      (match goSplitN2 ops ',' with
       | [o1] => (m, o1, "")
       | o1 :: o2 :: _ => (m, o1, o2)
       | [] => (m, "", ""))
  | [] => ("", "", "")

/-- `isSrcDataLine` checks for the data-directive sigil `$`. -/
def isSrcDataLine (srcLine : String) : Bool :=
  !srcLine.data.isEmpty && startsWithChar srcLine '$'

/-- `splitSrcDataLine` breaks a data-directive line into mnemonic and raw
data string. -/
def splitSrcDataLine (srcLine : String) : String × String :=
  match goSplitN2 srcLine ' ' with
  | [m] => (m, "")
  | m :: d :: _ => (m, d)
  | [] => ("", "")

/-- The backward scan of `getSrcLabel`, starting at line `k - 1`. -/
def getSrcLabelAux (srcLines : List String) : Nat → String
  | 0 => ""
  | k+1 =>
      let line := srcLines.getD k ""
      if line ≠ "" then (if isSrcLabel line then line else "")
      else getSrcLabelAux srcLines k

/-- `getSrcLabel` determines the label, if any, of a line of source code:
the nearest preceding non-empty line if it is a label, `""` otherwise. -/
def getSrcLabel (srcLines : List String) (lineNum : Nat) : String :=
  getSrcLabelAux srcLines lineNum

/-- Builds one structured statement from a source line. -/
def buildStructLine (srcLines : List String) (lineNum : Nat) (line : String) : srcLine :=
  let srcLabel := getSrcLabel srcLines lineNum
  if isSrcDataLine line then
    let (mnemonic, data) := splitSrcDataLine line
    { lineNum := lineNum, label := srcLabel, address := 0, mnemonic := mnemonic,
      op1Type := .invalidOp, op1 := "", op2Type := .invalidOp, op2 := "",
      data := data, bin := [] }
  else
    let (mnemonic, op1raw, op2raw) := splitSrcCodeLine line
    let mnemonic := goToUpper mnemonic
    let (op1Type, op1) := splitOp op1raw
    let (op2Type, op2) := splitOp op2raw
    { lineNum := lineNum, label := srcLabel, address := 0, mnemonic := mnemonic,
      op1Type := op1Type, op1 := op1, op2Type := op2Type, op2 := op2,
      data := "", bin := [] }

/-- The indexed loop of `buildStructSrc`. -/
def buildStructSrcAux (allLines : List String) (lineNum : Nat) :
    List String → List srcLine
  | [] => []
  | line :: rest =>
      (if line ≠ "" ∧ ¬ (isSrcLabel line = true) then
        [buildStructLine allLines lineNum line]
       else []) ++ buildStructSrcAux allLines (lineNum + 1) rest

/-- `buildStructSrc` converts processed source lines to structured form. -/
def buildStructSrc (srcLines : List String) : List srcLine :=
  buildStructSrcAux srcLines 0 srcLines

/-! ### Mnemonic tables (`process_struct.go`) -/

/-- Data directive type definitions. -/
inductive directiveType where
  | invalidDirective
  | data8BitDirective
  | data16BitDirective
deriving DecidableEq

/-- Data directive token definitions (Go map; the missing `invalid` key
reads as the zero value `""`). -/
def directiveTokens : directiveType → String
  | .data8BitDirective => "$8"
  | .data16BitDirective => "$16"
  | .invalidDirective => ""

/-- Mnemonic type definition. -/
structure mnemonic where
  descr : String
  opcode : Nat
  numOps : Nat
  instrLength : Nat
deriving DecidableEq

/-- Mnemonic alias definitions, in source listing order. -/
def mnemonicAliases : List (String × String) := [
  ("CO", "CO16"), ("AD", "AD16"), ("SU", "SU16"), ("MU", "MU16"),
  ("DV", "DV16"), ("ND", "ND16"), ("OR", "OR16"), ("XR", "XR16"),
  ("SL", "SL16"), ("SR", "SR16"), ("CM", "CM16"), ("$", "$16")]

/-- Go map lookup in `mnemonicAliases`. -/
def aliasFind (m : String) : Option String :=
  (mnemonicAliases.find? (fun p => p.1 == m)).map (·.2)

/-- Mnemonic definitions (instructions and directives), in source listing
order. -/
def mnemonicsList : List (String × mnemonic) := [
  ("NO", ⟨"NO OPERATION", 0x00, 0, 1⟩),
  ("CO8", ⟨"COPY", 0x01, 2, 5⟩),
  ("CO16", ⟨"COPY", 0x02, 2, 5⟩),
  ("AD8", ⟨"ADD", 0x03, 2, 5⟩),
  ("AD16", ⟨"ADD", 0x04, 2, 5⟩),
  ("SU8", ⟨"SUBTRACT", 0x05, 2, 5⟩),
  ("SU16", ⟨"SUBTRACT", 0x06, 2, 5⟩),
  ("MU8", ⟨"MULTIPLY", 0x07, 2, 5⟩),
  ("MU16", ⟨"MULTIPLY", 0x08, 2, 5⟩),
  ("DV8", ⟨"DIVIDE", 0x09, 2, 5⟩),
  ("DV16", ⟨"DIVIDE", 0x0A, 2, 5⟩),
  ("ND8", ⟨"BITWISE AND", 0x0B, 2, 5⟩),
  ("ND16", ⟨"BITWISE AND", 0x0C, 2, 5⟩),
  ("OR8", ⟨"BITWISE OR", 0x0D, 2, 5⟩),
  ("OR16", ⟨"BITWISE OR", 0x0E, 2, 5⟩),
  ("XR8", ⟨"BITWISE XOR", 0x0F, 2, 5⟩),
  ("XR16", ⟨"BITWISE XOR", 0x10, 2, 5⟩),
  ("SL8", ⟨"BITWISE SHIFT LEFT", 0x11, 2, 5⟩),
  ("SL16", ⟨"BITWISE SHIFT LEFT", 0x12, 2, 5⟩),
  ("SR8", ⟨"BITWISE SHIFT RIGHT", 0x13, 2, 5⟩),
  ("SR16", ⟨"BITWISE SHIFT RIGHT", 0x15, 2, 5⟩),
  ("CM8", ⟨"COMPARE", 0x15, 2, 5⟩),
  ("CM16", ⟨"COMPARE", 0x16, 2, 5⟩),
  ("EQ", ⟨"JUMP IF EQUAL", 0x17, 1, 3⟩),
  ("NE", ⟨"JUMP IF NOT EQUAL", 0x18, 1, 3⟩),
  ("LT", ⟨"JUMP IF LESS THAN", 0x19, 1, 3⟩),
  ("GT", ⟨"JUMP IF GREATER THAN", 0x1A, 1, 3⟩),
  ("EL", ⟨"JUMP IF EQUAL OR LESS THAN", 0x1B, 1, 3⟩),
  ("EG", ⟨"JUMP IF EQUAL OR GREATER THAN", 0x1C, 1, 3⟩),
  ("JM", ⟨"JUMP", 0x1D, 0, 1⟩),
  ("JS", ⟨"JUMP TO SUBROUTINE", 0x1E, 2, 5⟩),
  ("RT", ⟨"RETURN", 0x1F, 1, 3⟩),
  ("$8", ⟨"DATA DIRECTIVE", 0x00, 0, 0⟩),
  ("$16", ⟨"DATA DIRECTIVE", 0x00, 0, 0⟩)]

/-- Go map lookup in `mnemonics` with presence. -/
def mnemonicFind (m : String) : Option mnemonic :=
  (mnemonicsList.find? (fun p => p.1 == m)).map (·.2)

/-- Go map read `mnemonics[m]` (zero value when absent, exactly as a Go map
read of a missing key yields the zero `mnemonic` struct). -/
def mnemonicD (m : String) : mnemonic :=
  (mnemonicFind m).getD ⟨"", 0, 0, 0⟩

/-! ### Statement normalizer (`process_struct.go`) -/

/-- `unaliasMnemonics` replaces mnemonic aliases with base mnemonics. -/
def unaliasMnemonics (srcLines : List srcLine) : List srcLine :=
  srcLines.map (fun s =>
    match aliasFind s.mnemonic with
    | some base => { s with mnemonic := base }
    | none => s)

/-- `isDataString` checks whether a data payload is wrapped in quotes. -/
def isDataString (data : String) : Bool :=
  !data.data.isEmpty && data.data.head? == some '"' && data.data.getLast? == some '"'

/-- UTF-8 bytes of one character (Go's `[]byte` on a string). -/
def utf8EncodeChar (c : Char) : List Nat :=
  if c.toNat < 0x80 then [c.toNat]
  else if c.toNat < 0x800 then [0xC0 + c.toNat / 64, 0x80 + c.toNat % 64]
  else if c.toNat < 0x10000 then
    [0xE0 + c.toNat / 4096, 0x80 + c.toNat / 64 % 64, 0x80 + c.toNat % 64]
  else
    [0xF0 + c.toNat / 0x40000, 0x80 + c.toNat / 4096 % 64, 0x80 + c.toNat / 64 % 64,
     0x80 + c.toNat % 64]

/-- `[]byte s` for a Go string. -/
def utf8Bytes (s : String) : List Nat :=
  (s.data.map utf8EncodeChar).flatten

/-- `dataStringToHex` converts a data directive string (including its
surrounding quote characters) to a comma-joined value list, each byte
rendered with `strings.ToUpper (fmt.Sprintf "%x" b)`. -/
def dataStringToHex (dataString : String) : String :=
  goJoin ((utf8Bytes dataString).map (fun b => goToUpper (sprintfHex b))) ","

/-- `convDataStringsToHex` converts data directive strings to value lists
(8-bit data directives only). -/
def convDataStringsToHex (srcLines : List srcLine) : List srcLine :=
  srcLines.map (fun s =>
    if s.mnemonic == directiveTokens .data8BitDirective && isDataString s.data then
      { s with data := dataStringToHex s.data }
    else s)

/-- `isValidDataDirective` checks whether a mnemonic is a data directive. -/
def isValidDataDirective (mnemonic : String) : Bool :=
  mnemonic == directiveTokens .data8BitDirective
    || mnemonic == directiveTokens .data16BitDirective

/-- `isDataNullRepeat` checks for the `(N)` null repeat syntax. -/
def isDataNullRepeat (data : String) : Bool :=
  !data.data.isEmpty && data.data.head? == some '(' && data.data.getLast? == some ')'

/-- The repeat loop body of `expandDataNullRepeats`:
`for i := 1; i < n; i++ { data += null + "," }` run `k` times. -/
def nullRepeatLoop (nullVal : String) : Nat → String
  | 0 => ""
  | k+1 => (nullVal ++ ",") ++ nullRepeatLoop nullVal k

/-- `expandDataNullRepeats` translates `(N)` payloads on data directives to
value lists built from the `[NULL]` constant of the (package-level)
constant table. -/
def expandDataNullRepeats (tbl : ConstTable) :
    List srcLine → Except String (List srcLine)
  | [] => .ok []
  | s :: rest =>
      if isValidDataDirective s.mnemonic && isDataNullRepeat s.data then
        match goAtoi ⟨(s.data.data.drop 1).dropLast⟩ with
        | none =>
            .error (toString (s.lineNum + 1) ++ ":\tInvalid data null repeat " ++ s.data)
        | some numRepeats =>
            let nullVal := constGet tbl "[NULL]"
            let newData := nullRepeatLoop nullVal (numRepeats - 1).toNat ++ nullVal
            (expandDataNullRepeats tbl rest).map ({ s with data := newData } :: ·)
      else (expandDataNullRepeats tbl rest).map (s :: ·)

/-! ### Validators (`process_struct.go`) -/

/-- `validateMnemonics` checks every mnemonic against the descriptor
table. -/
def validateMnemonics : List srcLine → Except String Bool
  | [] => .ok true
  | s :: rest =>
      if (mnemonicFind s.mnemonic).isSome then validateMnemonics rest
      else .error (toString (s.lineNum + 1) ++ ":\tInvalid mnemonic " ++ s.mnemonic)

/-- `regexp ^[0-9A-Fa-f]{1,4}$`. -/
def is16BitHexString (hex : String) : Bool :=
  !hex.data.isEmpty && decide (hex.data.length ≤ 4) && hex.data.all isHexDigitChar

/-- `regexp ^[0-9A-Fa-f]{1,2}$`. -/
def is8BitHexString (hex : String) : Bool :=
  !hex.data.isEmpty && decide (hex.data.length ≤ 2) && hex.data.all isHexDigitChar

/-- `is16BitHexStrings` checks a whole value list. -/
def is16BitHexStrings (hex : List String) : Bool :=
  hex.all is16BitHexString

/-- `is8BitHexStrings` checks a whole value list. -/
def is8BitHexStrings (hex : List String) : Bool :=
  hex.all is8BitHexString

/-- `validateDataDirectives` checks the values of every data directive
against the directive's bit width. -/
def validateDataDirectives : List srcLine → Except String Bool
  | [] => .ok true
  | s :: rest =>
      if s.mnemonic == directiveTokens .data8BitDirective then
        if is8BitHexStrings (goSplit s.data ',') then validateDataDirectives rest
        else .error (toString (s.lineNum + 1) ++ ":\tInvalid 8-bit data in directive")
      else if s.mnemonic == directiveTokens .data16BitDirective then
        if is16BitHexStrings (goSplit s.data ',') then validateDataDirectives rest
        else .error (toString (s.lineNum + 1) ++ ":\tInvalid 16-bit data in directive")
      else validateDataDirectives rest

/-! ### Address and label resolver (`process_struct.go`) -/

/-- Maximum address space limit (`0xFFB0 - 2*128`, leaving space for the
call stack below the stack pointer). -/
def maxAddressSpace : Nat := 0xFFB0 - 2 * 128

/-- The number of bytes one statement advances the program counter by: the
payload byte count for data directives, the fixed instruction length
otherwise (a Go map read of an unknown mnemonic yields length 0). -/
def srcLineSize (s : srcLine) : Nat :=
  if isValidDataDirective s.mnemonic then
    if s.mnemonic == directiveTokens .data8BitDirective then
      (goSplit s.data ',').length
    else if s.mnemonic == directiveTokens .data16BitDirective then
      2 * (goSplit s.data ',').length
    else 0
  else (mnemonicD s.mnemonic).instrLength

/-- The loop of `calcAddresses`: assign the running counter, advance it by
the statement's size, and fail once the counter reaches
`maxAddressSpace`. -/
def calcAddressesAux : List srcLine → Nat → Except String (List srcLine)
  | [], _ => .ok []
  | s :: rest, pc =>
      let withAddress := { s with address := pc }
      let pc2 := pc + srcLineSize s
      if maxAddressSpace ≤ pc2 then
        .error (toString (s.lineNum + 1) ++ ":\tAddress out of range")
      else (calcAddressesAux rest pc2).map (withAddress :: ·)

/-- `calcAddresses` assigns addresses starting from the program offset. -/
def calcAddresses (srcLines : List srcLine) (programOffset : Nat) :
    Except String (List srcLine) :=
  calcAddressesAux srcLines programOffset

/-- Go map assignment `m[k] = v` on the label-address map. -/
def labelMapInsert (m : List (String × Nat)) (k : String) (v : Nat) :
    List (String × Nat) :=
  if m.any (fun p => p.1 == k) then
    m.map (fun p => if p.1 == k then (p.1, v) else p)
  else m ++ [(k, v)]

/-- Go map lookup on the label-address map. -/
def labelMapFind (m : List (String × Nat)) (k : String) : Option Nat :=
  (m.find? (fun p => p.1 == k)).map (·.2)

/-- `getLabelAddresses` collects every labelled statement's address. -/
def getLabelAddresses (srcLines : List srcLine) : List (String × Nat) :=
  srcLines.foldl (fun m s => if s.label != "" then labelMapInsert m s.label s.address else m) []

/-- The per-operand body of `expandLabels`: locate a label-shaped substring
and replace its first occurrence by the 4-digit uppercase hex address. -/
def expandOpLabel (labelAddresses : List (String × Nat)) (lineNum : Nat)
    (op : String) : Except String String :=
  if op != "" then
    let opLabel := getOpLabel op
    if opLabel != "" then
      match labelMapFind labelAddresses opLabel with
      | some addr => .ok (goReplace1 op opLabel (goToUpper (sprintf04x addr)))
      | none =>
          .error (toString (lineNum + 1) ++ ":\tLabel " ++ opLabel ++ " not defined")
    else .ok op
  else .ok op

/-- `expandLabels` translates source labels in operands into final
addresses. -/
def expandLabels : List srcLine → List (String × Nat) → Except String (List srcLine)
  | [], _ => .ok []
  | s :: rest, labelAddresses => do
      let op1 ← expandOpLabel labelAddresses s.lineNum s.op1
      let op2 ← expandOpLabel labelAddresses s.lineNum s.op2
      let out ← expandLabels rest labelAddresses
      pure ({ s with op1 := op1, op2 := op2 } :: out)

/-- `isValidHexString` checks for an 8- or 16-bit hex literal. -/
def isValidHexString (hex : String) : Bool :=
  is16BitHexString hex || is8BitHexString hex

/-- `validateOps` checks operand arity against the mnemonic's declared
count and every present operand against the hex grammar. -/
def validateOps : List srcLine → Except String Bool
  | [] => .ok true
  | s :: rest =>
      if !isValidDataDirective s.mnemonic then
        if (mnemonicD s.mnemonic).numOps == 0 && (s.op1 != "" || s.op2 != "") then
          .error (toString (s.lineNum + 1) ++ ":\t" ++ s.mnemonic ++ " needs no operands")
        else if (mnemonicD s.mnemonic).numOps == 1 && (s.op1 == "" || s.op2 != "") then
          .error (toString (s.lineNum + 1) ++ ":\t" ++ s.mnemonic ++ " needs one operand")
        else if (mnemonicD s.mnemonic).numOps == 2 && (s.op1 == "" || s.op2 == "") then
          .error (toString (s.lineNum + 1) ++ ":\t" ++ s.mnemonic ++ " needs two operands")
        else if s.op1 != "" && !isValidHexString s.op1 then
          .error (toString (s.lineNum + 1) ++ ":\tInvalid operand " ++ s.op1)
        else if s.op2 != "" && !isValidHexString s.op2 then
          .error (toString (s.lineNum + 1) ++ ":\tInvalid operand " ++ s.op2)
        else validateOps rest
      else validateOps rest

/-! ### Binary encoder (`struct_to_bin.go`) -/

/-- `splitUint16` breaks a 16-bit value into high and low bytes. -/
def splitUint16 (srcInt : Nat) : Nat × Nat :=
  ((srcInt / 256) % 256, srcInt % 256)

/-- `appendUint16` appends a 16-bit value big-endian to a byte list. -/
def appendUint16 (bin : List Nat) (srcInt : Nat) : List Nat :=
  bin ++ [(splitUint16 srcInt).1, (splitUint16 srcInt).2]

/-- `buildData` parses and appends a data directive's payload values. -/
def buildData (s : srcLine) : srcLine :=
  let splitData := goSplit s.data ','
  if s.mnemonic == directiveTokens .data8BitDirective then
    { s with bin := splitData.foldl (fun b d => b ++ [(goParseUint d 8).1]) s.bin }
  else if s.mnemonic == directiveTokens .data16BitDirective then
    { s with bin := splitData.foldl (fun b d => appendUint16 b (goParseUint d 16).1) s.bin }
  else s

/-- `buildOpcode` creates the opcode byte: the base opcode shifted left by
three (a Go `byte` shift, hence the `% 256`), with the operand-type
selector OR-ed into the low bits. -/
def buildOpcode (s : srcLine) : srcLine :=
  let opcode := ((mnemonicD s.mnemonic).opcode <<< 3) % 256
  let opcode :=
    if s.op1Type = .literalOp ∧ s.op2Type = .addressOp then opcode ||| 0x00
    else if s.op1Type = .literalOp ∧ s.op2Type = .pointerOp then opcode ||| 0x01
    else if s.op1Type = .addressOp ∧ s.op2Type = .addressOp then opcode ||| 0x02
    else if s.op1Type = .addressOp ∧ s.op2Type = .pointerOp then opcode ||| 0x03
    else if s.op1Type = .pointerOp ∧ s.op2Type = .addressOp then opcode ||| 0x04
    else if s.op1Type = .pointerOp ∧ s.op2Type = .pointerOp then opcode ||| 0x05
    else opcode
  { s with bin := s.bin ++ [opcode] }

/-- `buildOps` appends the operand words according to the instruction
length. -/
def buildOps (s : srcLine) : srcLine :=
  match (mnemonicD s.mnemonic).instrLength with
  | 3 => { s with bin := appendUint16 s.bin (goParseUint s.op1 16).1 }
  | 5 => { s with bin := appendUint16 (appendUint16 s.bin (goParseUint s.op1 16).1)
                           (goParseUint s.op2 16).1 }
  | _ => s

/-- `buildInstr` encodes one instruction statement. -/
def buildInstr (s : srcLine) : srcLine :=
  buildOps (buildOpcode s)

/-- `buildBinSrcLines` encodes every statement. -/
def buildBinSrcLines (srcLines : List srcLine) : List srcLine :=
  srcLines.map (fun s => if isValidDataDirective s.mnemonic then buildData s else buildInstr s)

/-- RELIC-16 binary executable file magic header. -/
def binMagicHeader : List Nat := [0x12, 0x31, 0x1C, 0x16]

/-- `buildBin` concatenates the magic header, the big-endian program
offset, and every statement's encoded bytes in source order. -/
def buildBin (srcLines : List srcLine) (programOffset : Nat) : List Nat :=
  srcLines.foldl (fun b s => b ++ s.bin) (appendUint16 binMagicHeader programOffset)

/-! ### The assembly pipeline (`Raw` in `src_to_struct.go`) -/

/-- The statement-level portion of `Raw`, from unaliasing to the final
binary.  `tbl` is the constant map state used by the null-repeat
expansion. -/
def processStructCore (tbl : ConstTable) (structed : List srcLine)
    (programOffset : Nat) : Except String (List Nat) := do
  let s2 := convDataStringsToHex structed
  let s3 ← expandDataNullRepeats tbl s2
  let _ ← validateMnemonics s3
  let _ ← validateDataDirectives s3
  let s4 ← calcAddresses s3 programOffset
  let labelAddresses := getLabelAddresses s4
  let s5 ← expandLabels s4 labelAddresses
  let _ ← validateOps s5
  let s6 := buildBinSrcLines s5
  pure (buildBin s6 programOffset)

/-- The statement-level portion of `Raw`, starting at unaliasing. -/
def processStruct (tbl : ConstTable) (structed : List srcLine)
    (programOffset : Nat) : Except String (List Nat) :=
  processStructCore tbl (unaliasMnemonics structed) programOffset

/-- `Raw` orchestrates the complete assembly, returning the binary (or the
first error) together with the state the package-level constant map is
left in.  `reader` models the host collaborator `file.ReadSrc` used for
include files. -/
def Raw (reader : String → Except String (List String)) (rawSrcLines : List String)
    (srcName : String) (programOffset : Nat) (tbl : ConstTable) :
    Except String (List Nat) × ConstTable :=
  let cleaned := cleanSrc rawSrcLines
  match expandConsts cleaned tbl with
  | (.error e, tbl2) => (.error e, tbl2)
  | (.ok expanded, tbl2) =>
      let namespaced := addSrcLabelNamespaces expanded srcName
      match addIncludes reader namespaced tbl2 with
      | (.error e, tbl3) => (.error e, tbl3)
      | (.ok full, tbl3) =>
          match hasDupeSrcLabels full with
          | (true, srcLabel, lineNum) =>
              (.error ("Duplicate label found on line " ++ toString (lineNum + 1)
                ++ ": " ++ srcLabel), tbl3)
          | (false, _, _) =>
              (processStruct tbl3 (buildStructSrc full) programOffset, tbl3)

/-! ### Definitions used by the statements of the verification results -/

/-- An include reader for programs without include directives (never
invoked by them). -/
def noReader : String → Except String (List String) :=
  fun _ => .error "no include files"

/-- The first statement at which the running program counter reaches
`maxAddressSpace` after the statement's size is added, scanning forward
from `pc` — the statement `calcAddresses` is specified to fail at. -/
def firstOverflow : Nat → List srcLine → Option srcLine
  | _, [] => none
  | pc, s :: rest =>
      if maxAddressSpace ≤ pc + srcLineSize s then some s
      else firstOverflow (pc + srcLineSize s) rest

/-- Every hexadecimal parse the binary encoder performs on a statement
succeeds (returns a nil Go error): all data values at the directive's
width in `buildData`, and the operand words `buildOps` reads according to
the instruction length. -/
def binParsesOk (s : srcLine) : Bool :=
  if isValidDataDirective s.mnemonic then
    if s.mnemonic == directiveTokens .data8BitDirective then
      (goSplit s.data ',').all (fun d => (goParseUint d 8).2)
    else
      (goSplit s.data ',').all (fun d => (goParseUint d 16).2)
  else
    match (mnemonicD s.mnemonic).instrLength with
    | 3 => (goParseUint s.op1 16).2
    | 5 => (goParseUint s.op1 16).2 && (goParseUint s.op2 16).2
    | _ => true

/-- The rendering the specification claims for data-string bytes: two-digit
uppercase hexadecimal. -/
def hex2UpperByte (b : Nat) : String :=
  ⟨[hexDigitCharUpper (b / 16 % 16), hexDigitCharUpper (b % 16)]⟩

/-- The rendering the code actually produces for a byte below 256:
minimal-width (one- or two-digit) uppercase hexadecimal. -/
def specHexUpperByte (b : Nat) : String :=
  if b < 16 then ⟨[hexDigitCharUpper b]⟩
  else ⟨[hexDigitCharUpper (b / 16), hexDigitCharUpper (b % 16)]⟩

/-- The three-line label-resolution example of the specification. -/
def c6Src : List String := ["foo.bar", "NO", "CM $1,foo.bar"]

/-- The structured pipeline of `Raw` on `c6Src` up to and including label
expansion, at load offset 0. -/
def c6Resolved : Except String (List srcLine) := do
  let s2 := convDataStringsToHex (unaliasMnemonics (buildStructSrc c6Src))
  let s3 ← expandDataNullRepeats defaultConsts s2
  let s4 ← calcAddresses s3 0
  expandLabels s4 (getLabelAddresses s4)

/-! ## Verification results -/

/-- Claim C1: assembling the single source line `NO` with load offset
`0000` produces exactly the seven bytes `12 31 1C 16 00 00 00` — the
4-byte magic header, the 2-byte big-endian load offset, and the single
1-byte NOP opcode `0x00` — and leaves the constant table untouched. -/
theorem c1_single_no_line :
    Raw noReader ["NO"] "test.rasm" 0 defaultConsts
    = (.ok [0x12, 0x31, 0x1C, 0x16, 0x00, 0x00, 0x00], defaultConsts) := rfl

/-- Claim C7: determinism and statelessness across runs fail.  `getConsts`
aliases the package-level map `defaultConsts` (documented in the source as
immutable), so user constants inserted by one run persist into the next:
assembling `["[FOO] 1234", "NO"]` succeeds the first time but fails with a
redefinition error the second time, with identical inputs. -/
theorem c7_second_run_diverges :
    (Raw noReader ["[FOO] 1234", "NO"] "test.rasm" 0 defaultConsts).1
      = .ok [0x12, 0x31, 0x1C, 0x16, 0x00, 0x00, 0x00]
    ∧ (Raw noReader ["[FOO] 1234", "NO"] "test.rasm" 0
        ((Raw noReader ["[FOO] 1234", "NO"] "test.rasm" 0 defaultConsts).2)).1
      = .error "1: Cannot redefine preprocessor constant [FOO]"
    ∧ (Raw noReader ["[FOO] 1234", "NO"] "test.rasm" 0 defaultConsts).2
      = defaultConsts ++ [("[FOO]", "1234")] :=
  ⟨rfl, rfl, rfl⟩

/-- Claim C8: a statement written with the alias mnemonic `CO` encodes to
exactly the same bytes (indeed, the same full pipeline result) as the same
statement written with the canonical mnemonic `CO16`, for every pair of
operands, every label, line number, payload, offset and constant-table
state. -/
theorem c8_co_encodes_as_co16 (lineNum addr : Nat) (label op1 op2 dat : String)
    (t1 t2 : opType) (bin : List Nat) (tbl : ConstTable) (offset : Nat) :
    processStruct tbl [⟨lineNum, label, addr, "CO", t1, op1, t2, op2, dat, bin⟩] offset
    = processStruct tbl [⟨lineNum, label, addr, "CO16", t1, op1, t2, op2, dat, bin⟩] offset := by
  have h : unaliasMnemonics [⟨lineNum, label, addr, "CO", t1, op1, t2, op2, dat, bin⟩]
      = unaliasMnemonics [⟨lineNum, label, addr, "CO16", t1, op1, t2, op2, dat, bin⟩] := rfl
  unfold processStruct
  rw [h]

/-! ### Facts about the mnemonic descriptor table -/

theorem mnemonicD_cases (m : String) :
    mnemonicD m = ⟨"", 0, 0, 0⟩ ∨ ∃ p ∈ mnemonicsList, mnemonicD m = p.2 := by
  unfold mnemonicD mnemonicFind
  cases h : mnemonicsList.find? (fun p => p.1 == m) with
  | none => simp
  | some p => exact Or.inr ⟨p, List.mem_of_find?_eq_some h, by simp [h]⟩

theorem mnemonicD_opcode_lt (m : String) : (mnemonicD m).opcode < 32 := by
  rcases mnemonicD_cases m with h | ⟨p, hp, h⟩
  · rw [h]; decide
  · rw [h]
    have hall : ∀ q ∈ mnemonicsList, q.2.opcode < 32 := by decide
    exact hall p hp

theorem mnemonicD_numOps_of_len3 (m : String)
    (h3 : (mnemonicD m).instrLength = 3) : (mnemonicD m).numOps = 1 := by
  rcases mnemonicD_cases m with h | ⟨p, hp, h⟩
  · rw [h] at h3; simp at h3
  · rw [h] at h3 ⊢
    have hall : ∀ q ∈ mnemonicsList, q.2.instrLength = 3 → q.2.numOps = 1 := by decide
    exact hall p hp h3

theorem mnemonicD_numOps_of_len5 (m : String)
    (h5 : (mnemonicD m).instrLength = 5) : (mnemonicD m).numOps = 2 := by
  rcases mnemonicD_cases m with h | ⟨p, hp, h⟩
  · rw [h] at h5; simp at h5
  · rw [h] at h5 ⊢
    have hall : ∀ q ∈ mnemonicsList, q.2.instrLength = 5 → q.2.numOps = 2 := by decide
    exact hall p hp h5

theorem opcodeShift_mod (m : String) :
    ((mnemonicD m).opcode <<< 3) % 256 = (mnemonicD m).opcode <<< 3 := by
  have h := mnemonicD_opcode_lt m
  have hlt : (mnemonicD m).opcode <<< 3 < 256 := by
    rw [Nat.shiftLeft_eq, show (2 : Nat) ^ 3 = 8 from rfl]
    omega
  exact Nat.mod_eq_of_lt hlt

/-! ### Facts about `goParseUint` -/

theorem goParseUint_fst_lt (s : String) (bits : Nat) :
    (goParseUint s bits).1 < 2 ^ bits := by
  have hpos : 0 < 2 ^ bits := Nat.pos_pow_of_pos bits (by omega)
  unfold goParseUint
  split
  · simp [hpos]
  · split
    · simp [hpos]
    · split
      · next hv => simpa using hv
      · simp [hpos]

theorem hexDigitVal_le (c : Char) (d : Nat) (h : hexDigitVal c = some d) : d ≤ 15 := by
  unfold hexDigitVal at h
  split_ifs at h <;> simp_all <;> omega

theorem hexValAux_some (cs : List Char) (h : cs.all isHexDigitChar = true) :
    ∀ acc, ∃ v, hexValAux acc cs = some v ∧ v < (acc + 1) * 16 ^ cs.length := by
  induction cs with
  | nil =>
      intro acc
      exact ⟨acc, rfl, by simp⟩
  | cons c cs ih =>
      intro acc
      rw [List.all_cons, Bool.and_eq_true] at h
      obtain ⟨hc, hcs⟩ := h
      obtain ⟨d, hd⟩ := Option.isSome_iff_exists.mp hc
      have hd15 : d ≤ 15 := hexDigitVal_le c d hd
      obtain ⟨v, hv, hb⟩ := ih hcs (16 * acc + d)
      refine ⟨v, by simp [hexValAux, hd, hv], ?_⟩
      have hle : 16 * acc + d + 1 + 1 ≤ (acc + 1) * 16 + 1 := by omega
      calc v < (16 * acc + d + 1) * 16 ^ cs.length := hb
        _ ≤ ((acc + 1) * 16) * 16 ^ cs.length := Nat.mul_le_mul_right _ (by omega)
        _ = (acc + 1) * 16 ^ (cs.length + 1) := by rw [pow_succ]; ring

theorem goParseUint_ok (s : String) (k bits : Nat) (h1 : s.data ≠ [])
    (h2 : s.data.length ≤ k) (h3 : s.data.all isHexDigitChar = true)
    (hk : 16 ^ k ≤ 2 ^ bits) : (goParseUint s bits).2 = true := by
  obtain ⟨v, hv, hb⟩ := hexValAux_some s.data h3 0
  have hvlt : v < 16 ^ s.data.length := by simpa using hb
  have hvbits : v < 2 ^ bits :=
    lt_of_lt_of_le (lt_of_lt_of_le hvlt (Nat.pow_le_pow_right (by omega) h2)) hk
  unfold goParseUint
  split
  · next heq => exact absurd heq h1
  · rw [hv]
    simp [hvbits]

theorem is8BitHexString_parts (d : String) (h : is8BitHexString d = true) :
    d.data ≠ [] ∧ d.data.length ≤ 2 ∧ d.data.all isHexDigitChar = true := by
  unfold is8BitHexString at h
  simp only [Bool.and_eq_true, Bool.not_eq_true', List.isEmpty_eq_false,
    decide_eq_true_eq] at h
  exact ⟨h.1.1, h.1.2, h.2⟩

theorem is16BitHexString_parts (d : String) (h : is16BitHexString d = true) :
    d.data ≠ [] ∧ d.data.length ≤ 4 ∧ d.data.all isHexDigitChar = true := by
  unfold is16BitHexString at h
  simp only [Bool.and_eq_true, Bool.not_eq_true', List.isEmpty_eq_false,
    decide_eq_true_eq] at h
  exact ⟨h.1.1, h.1.2, h.2⟩

theorem parse8_ok_of_is8 (d : String) (h : is8BitHexString d = true) :
    (goParseUint d 8).2 = true := by
  obtain ⟨h1, h2, h3⟩ := is8BitHexString_parts d h
  exact goParseUint_ok d 2 8 h1 h2 h3 (by norm_num)

theorem parse16_ok_of_is16 (d : String) (h : is16BitHexString d = true) :
    (goParseUint d 16).2 = true := by
  obtain ⟨h1, h2, h3⟩ := is16BitHexString_parts d h
  exact goParseUint_ok d 4 16 h1 h2 h3 (by norm_num)

theorem parse16_ok_of_valid (d : String) (h : isValidHexString d = true) :
    (goParseUint d 16).2 = true := by
  unfold isValidHexString at h
  rw [Bool.or_eq_true] at h
  rcases h with h | h
  · exact parse16_ok_of_is16 d h
  · obtain ⟨h1, h2, h3⟩ := is8BitHexString_parts d h
    exact goParseUint_ok d 4 16 h1 (by omega) h3 (by norm_num)

theorem foldl_append_bin (lines : List srcLine) :
    ∀ init : List Nat,
      lines.foldl (fun b s => b ++ s.bin) init = init ++ (lines.map srcLine.bin).flatten := by
  induction lines with
  | nil => intro init; simp
  | cons s rest ih => intro init; simp [ih, List.append_assoc]

/-- Claim C2: for every instruction statement whose operand types are one
of the six legal combinations, the emitted opcode byte is
`(base_opcode <<< 3) ||| selector` with the selector given by the fixed
table; the operand values follow as 16-bit big-endian words according to
the instruction length (1 → none, 3 → one, 5 → two); and the final image
is the 4-byte magic `12 31 1C 16`, the 2-byte big-endian load offset, then
every statement's encoded bytes in source order. -/
theorem c2_encoding (s : srcLine) :
    ((s.op1Type = .literalOp ∧ s.op2Type = .addressOp) →
      (buildOpcode s).bin = s.bin ++ [((mnemonicD s.mnemonic).opcode <<< 3) ||| 0])
    ∧ ((s.op1Type = .literalOp ∧ s.op2Type = .pointerOp) →
      (buildOpcode s).bin = s.bin ++ [((mnemonicD s.mnemonic).opcode <<< 3) ||| 1])
    ∧ ((s.op1Type = .addressOp ∧ s.op2Type = .addressOp) →
      (buildOpcode s).bin = s.bin ++ [((mnemonicD s.mnemonic).opcode <<< 3) ||| 2])
    ∧ ((s.op1Type = .addressOp ∧ s.op2Type = .pointerOp) →
      (buildOpcode s).bin = s.bin ++ [((mnemonicD s.mnemonic).opcode <<< 3) ||| 3])
    ∧ ((s.op1Type = .pointerOp ∧ s.op2Type = .addressOp) →
      (buildOpcode s).bin = s.bin ++ [((mnemonicD s.mnemonic).opcode <<< 3) ||| 4])
    ∧ ((s.op1Type = .pointerOp ∧ s.op2Type = .pointerOp) →
      (buildOpcode s).bin = s.bin ++ [((mnemonicD s.mnemonic).opcode <<< 3) ||| 5])
    ∧ ((mnemonicD s.mnemonic).instrLength = 1 → (buildOps s).bin = s.bin)
    ∧ ((mnemonicD s.mnemonic).instrLength = 3 →
      (buildOps s).bin = s.bin ++ [(goParseUint s.op1 16).1 / 256, (goParseUint s.op1 16).1 % 256])
    ∧ ((mnemonicD s.mnemonic).instrLength = 5 →
      (buildOps s).bin = s.bin
        ++ [(goParseUint s.op1 16).1 / 256, (goParseUint s.op1 16).1 % 256]
        ++ [(goParseUint s.op2 16).1 / 256, (goParseUint s.op2 16).1 % 256])
    ∧ (∀ (lines : List srcLine) (off : Nat), off < 65536 →
      buildBin lines off = [0x12, 0x31, 0x1C, 0x16] ++ [off / 256, off % 256]
        ++ (lines.map srcLine.bin).flatten) := by
  have hm := opcodeShift_mod s.mnemonic
  have hop1 : (goParseUint s.op1 16).1 < 65536 := by
    have := goParseUint_fst_lt s.op1 16; norm_num at this; exact this
  have hop2 : (goParseUint s.op2 16).1 < 65536 := by
    have := goParseUint_fst_lt s.op2 16; norm_num at this; exact this
  refine ⟨?_, ?_, ?_, ?_, ?_, ?_, ?_, ?_, ?_, ?_⟩
  · rintro ⟨h1, h2⟩; simp [buildOpcode, h1, h2, hm]
  · rintro ⟨h1, h2⟩; simp [buildOpcode, h1, h2, hm]
  · rintro ⟨h1, h2⟩; simp [buildOpcode, h1, h2, hm]
  · rintro ⟨h1, h2⟩; simp [buildOpcode, h1, h2, hm]
  · rintro ⟨h1, h2⟩; simp [buildOpcode, h1, h2, hm]
  · rintro ⟨h1, h2⟩; simp [buildOpcode, h1, h2, hm]
  · intro h; simp [buildOps, h]
  · intro h
    simp [buildOps, h, appendUint16, splitUint16, Nat.mod_eq_of_lt (show (goParseUint s.op1 16).1 / 256 < 256 by omega)]
  · intro h
    simp [buildOps, h, appendUint16, splitUint16,
      Nat.mod_eq_of_lt (show (goParseUint s.op1 16).1 / 256 < 256 by omega),
      Nat.mod_eq_of_lt (show (goParseUint s.op2 16).1 / 256 < 256 by omega)]
  · intro lines off hoff
    unfold buildBin
    rw [foldl_append_bin]
    simp [appendUint16, splitUint16, binMagicHeader,
      Nat.mod_eq_of_lt (show off / 256 < 256 by omega)]

/-- Witness for C2 at a concrete `CO16 $1,2` statement and a concrete
image. -/
theorem c2_encoding_witness :
    (buildOpcode ⟨0, "", 0, "CO16", .literalOp, "1", .addressOp, "2", "", []⟩).bin
      = [] ++ [((mnemonicD "CO16").opcode <<< 3) ||| 0]
    ∧ buildBin [] 0 = [0x12, 0x31, 0x1C, 0x16] ++ [0 / 256, 0 % 256]
        ++ (([] : List srcLine).map srcLine.bin).flatten :=
  ⟨(c2_encoding ⟨0, "", 0, "CO16", .literalOp, "1", .addressOp, "2", "", []⟩).1
      ⟨rfl, rfl⟩,
   (c2_encoding ⟨0, "", 0, "CO16", .literalOp, "1", .addressOp, "2", "", []⟩).2.2.2.2.2.2.2.2.2
      [] 0 (by decide)⟩

/-- Claim C9: for every instruction statement whose operand-type pair
matches none of the six listed combinations — in particular zero-operand
statements, whose operand types are both `invalidOp` — the emitted opcode
byte is exactly `base_opcode <<< 3` (selector bits 0), indistinguishable
from the `{Literal, Address}` encoding of the same statement. -/
theorem c9_fallthrough_selector (s : srcLine)
    (h : ¬((s.op1Type = .literalOp ∧ s.op2Type = .addressOp)
        ∨ (s.op1Type = .literalOp ∧ s.op2Type = .pointerOp)
        ∨ (s.op1Type = .addressOp ∧ s.op2Type = .addressOp)
        ∨ (s.op1Type = .addressOp ∧ s.op2Type = .pointerOp)
        ∨ (s.op1Type = .pointerOp ∧ s.op2Type = .addressOp)
        ∨ (s.op1Type = .pointerOp ∧ s.op2Type = .pointerOp))) :
    (buildOpcode s).bin = s.bin ++ [(mnemonicD s.mnemonic).opcode <<< 3]
    ∧ (buildOpcode s).bin
      = (buildOpcode { s with op1Type := .literalOp, op2Type := .addressOp }).bin := by
  have hm := opcodeShift_mod s.mnemonic
  have h1 : ¬(s.op1Type = .literalOp ∧ s.op2Type = .addressOp) := fun hc => h (Or.inl hc)
  have h2 : ¬(s.op1Type = .literalOp ∧ s.op2Type = .pointerOp) :=
    fun hc => h (Or.inr (Or.inl hc))
  have h3 : ¬(s.op1Type = .addressOp ∧ s.op2Type = .addressOp) :=
    fun hc => h (Or.inr (Or.inr (Or.inl hc)))
  have h4 : ¬(s.op1Type = .addressOp ∧ s.op2Type = .pointerOp) :=
    fun hc => h (Or.inr (Or.inr (Or.inr (Or.inl hc))))
  have h5 : ¬(s.op1Type = .pointerOp ∧ s.op2Type = .addressOp) :=
    fun hc => h (Or.inr (Or.inr (Or.inr (Or.inr (Or.inl hc)))))
  have h6 : ¬(s.op1Type = .pointerOp ∧ s.op2Type = .pointerOp) :=
    fun hc => h (Or.inr (Or.inr (Or.inr (Or.inr (Or.inr hc)))))
  constructor
  · simp [buildOpcode, h1, h2, h3, h4, h5, h6, hm]
  · simp [buildOpcode, h1, h2, h3, h4, h5, h6, hm]

/-- Witness for C9 at the zero-operand `NO` statement (both operand types
`invalidOp`). -/
theorem c9_fallthrough_selector_witness :
    (buildOpcode ⟨0, "", 0, "NO", .invalidOp, "", .invalidOp, "", "", []⟩).bin
      = [] ++ [(mnemonicD "NO").opcode <<< 3]
    ∧ (buildOpcode ⟨0, "", 0, "NO", .invalidOp, "", .invalidOp, "", "", []⟩).bin
      = (buildOpcode { (⟨0, "", 0, "NO", .invalidOp, "", .invalidOp, "", "", []⟩ : srcLine)
          with op1Type := .literalOp, op2Type := .addressOp }).bin :=
  c9_fallthrough_selector ⟨0, "", 0, "NO", .invalidOp, "", .invalidOp, "", "", []⟩
    (by decide)

theorem calcAddressesAux_range :
    ∀ (lines : List srcLine) (pc : Nat) (out : List srcLine),
      calcAddressesAux lines pc = .ok out →
      ∀ s ∈ out, pc ≤ s.address ∧ s.address < maxAddressSpace := by
  intro lines
  induction lines with
  | nil =>
      intro pc out h s hs
      unfold calcAddressesAux at h
      cases h
      simp at hs
  | cons a rest ih =>
      intro pc out h s hs
      unfold calcAddressesAux at h
      by_cases hb : maxAddressSpace ≤ pc + srcLineSize a
      · simp [hb] at h
      · rw [if_neg hb] at h
        cases hr : calcAddressesAux rest (pc + srcLineSize a) with
        | error e => rw [hr] at h; simp [Except.map] at h
        | ok out2 =>
            rw [hr] at h
            simp only [Except.map] at h
            cases h
            rcases List.mem_cons.mp hs with rfl | hs2
            · refine ⟨Nat.le_refl pc, ?_⟩
              simp only []
              omega
            · have := ih (pc + srcLineSize a) out2 hr s hs2
              exact ⟨by omega, this.2⟩

theorem calcAddressesAux_err :
    ∀ (lines : List srcLine) (pc : Nat) (s : srcLine),
      firstOverflow pc lines = some s →
      calcAddressesAux lines pc
        = .error (toString (s.lineNum + 1) ++ ":\tAddress out of range") := by
  intro lines
  induction lines with
  | nil => intro pc s h; simp [firstOverflow] at h
  | cons a rest ih =>
      intro pc s h
      unfold firstOverflow at h
      unfold calcAddressesAux
      by_cases hb : maxAddressSpace ≤ pc + srcLineSize a
      · rw [if_pos hb] at h
        cases h
        rw [if_pos hb]
      · rw [if_neg hb] at h
        rw [if_neg hb, ih (pc + srcLineSize a) s h]
        rfl

theorem calcAddressesAux_ok :
    ∀ (lines : List srcLine) (pc : Nat),
      firstOverflow pc lines = none →
      ∃ out, calcAddressesAux lines pc = .ok out := by
  intro lines
  induction lines with
  | nil => intro pc _; exact ⟨[], rfl⟩
  | cons a rest ih =>
      intro pc h
      unfold firstOverflow at h
      unfold calcAddressesAux
      by_cases hb : maxAddressSpace ≤ pc + srcLineSize a
      · rw [if_pos hb] at h; cases h
      · rw [if_neg hb] at h
        obtain ⟨out, hout⟩ := ih (pc + srcLineSize a) h
        rw [if_neg hb, hout]
        exact ⟨_, rfl⟩

/-- Claim C3: on success every assigned statement address lies in
`[load_offset, maxAddressSpace)` with `maxAddressSpace = 0xFFB0 − 256`;
and whenever the program counter reaches or exceeds that bound after a
statement's length is added (first at `firstOverflow`), assembly fails
with the address-out-of-range error carrying that statement's line — it
never silently wraps, and succeeds exactly when no statement overflows. -/
theorem c3_addresses_in_range (lines : List srcLine) (offset : Nat) :
    (∀ out, calcAddresses lines offset = .ok out →
      ∀ s ∈ out, offset ≤ s.address ∧ s.address < maxAddressSpace)
    ∧ (∀ s, firstOverflow offset lines = some s →
      calcAddresses lines offset
        = .error (toString (s.lineNum + 1) ++ ":\tAddress out of range"))
    ∧ (firstOverflow offset lines = none →
      ∃ out, calcAddresses lines offset = .ok out) :=
  ⟨fun out h => calcAddressesAux_range lines offset out h,
   fun s h => calcAddressesAux_err lines offset s h,
   fun h => calcAddressesAux_ok lines offset h⟩

/-- Witness for C3: one `NO` statement placed at `0xFEAF` overflows the
address space and is reported at its (1-based) line. -/
theorem c3_addresses_in_range_witness :
    calcAddresses [⟨0, "", 0, "NO", .invalidOp, "", .invalidOp, "", "", []⟩] 65199
      = .error ("1:\tAddress out of range")
    ∧ (∀ s ∈ [(⟨0, "", 7, "NO", .invalidOp, "", .invalidOp, "", "", []⟩ : srcLine)],
        7 ≤ s.address ∧ s.address < maxAddressSpace) :=
  ⟨(c3_addresses_in_range [⟨0, "", 0, "NO", .invalidOp, "", .invalidOp, "", "", []⟩]
      65199).2.1 _ rfl,
   (c3_addresses_in_range [⟨0, "", 0, "NO", .invalidOp, "", .invalidOp, "", "", []⟩]
      7).1 _ rfl⟩

theorem nullRepeatLoop_join (nullVal : String) :
    ∀ n, 1 ≤ n →
      nullRepeatLoop nullVal (n - 1) ++ nullVal = goJoin (List.replicate n nullVal) "," := by
  intro n
  induction n with
  | zero => intro h; omega
  | succ m ih =>
      intro _
      cases m with
      | zero =>
          show nullRepeatLoop nullVal 0 ++ nullVal = goJoin [nullVal] ","
          apply String.ext
          simp [nullRepeatLoop, goJoin]
      | succ k =>
          have hrec := ih (by omega)
          simp only [Nat.add_sub_cancel] at hrec
          show (nullVal ++ ",") ++ nullRepeatLoop nullVal k ++ nullVal
            = goJoin (nullVal :: List.replicate (k + 1) nullVal) ","
          rw [String.append_assoc, hrec]
          cases hk : List.replicate (k + 1) nullVal with
          | nil => simp at hk
          | cons x xs =>
              show (nullVal ++ ",") ++ goJoin (x :: xs) ","
                = nullVal ++ "," ++ goJoin (x :: xs) ","
              rw [String.append_assoc]

/-- Counterexample for C4 as stated: the payload `(0)` names the decimal
count 0, but `expandDataNullRepeats` replaces it with one copy of `0000`,
not zero copies. -/
theorem c4_counterexample :
    expandDataNullRepeats defaultConsts
      [⟨0, "", 0, "$16", .invalidOp, "", .invalidOp, "", "(0)", []⟩]
      = .ok [⟨0, "", 0, "$16", .invalidOp, "", .invalidOp, "", "0000", []⟩]
    ∧ "0000" ≠ goJoin (List.replicate 0 "0000") "," :=
  ⟨rfl, by decide⟩

/-- Claim C4 (amended): for every data directive whose payload is `(N)`
for a decimal count N ≥ 1, the payload is replaced by exactly N
comma-separated copies of the null value `0000`; for N = 0 the code emits
one copy instead of zero. -/
theorem c4_null_repeat_expansion (s : srcLine) (n : Nat)
    (hdir : isValidDataDirective s.mnemonic = true)
    (hrep : isDataNullRepeat s.data = true)
    (hn : goAtoi ⟨(s.data.data.drop 1).dropLast⟩ = some (Int.ofNat n))
    (hpos : 1 ≤ n) :
    expandDataNullRepeats defaultConsts [s]
      = .ok [{ s with data := goJoin (List.replicate n "0000") "," }] := by
  unfold expandDataNullRepeats
  rw [hdir, hrep]
  simp only [Bool.and_self, if_true, hn]
  have hnull : constGet defaultConsts "[NULL]" = "0000" := rfl
  rw [hnull]
  have htn : (Int.ofNat n - 1).toNat = n - 1 := by
    rw [show Int.ofNat n = (n : Int) from rfl]
    omega
  rw [htn, nullRepeatLoop_join "0000" n hpos]
  rfl

/-- Witness for C4 at the specification's own example `$16 (3)`. -/
theorem c4_null_repeat_expansion_witness :
    expandDataNullRepeats defaultConsts
      [⟨0, "", 0, "$16", .invalidOp, "", .invalidOp, "", "(3)", []⟩]
      = .ok [{ (⟨0, "", 0, "$16", .invalidOp, "", .invalidOp, "", "(3)", []⟩ : srcLine)
          with data := goJoin (List.replicate 3 "0000") "," }] :=
  c4_null_repeat_expansion ⟨0, "", 0, "$16", .invalidOp, "", .invalidOp, "", "(3)", []⟩
    3 rfl rfl rfl (by decide)

theorem char_toNat_lt (c : Char) : c.toNat < 1114112 := by
  have h := c.valid
  rcases h with h | ⟨_, h⟩
  · exact Nat.lt_trans h (by norm_num)
  · exact h

theorem utf8EncodeChar_lt (c : Char) : ∀ b ∈ utf8EncodeChar c, b < 256 := by
  intro b hb
  have hc : c.toNat < 1114112 := char_toNat_lt c
  unfold utf8EncodeChar at hb
  split_ifs at hb with h1 h2 h3 <;> simp at hb <;> omega

theorem utf8Bytes_lt (s : String) : ∀ b ∈ utf8Bytes s, b < 256 := by
  intro b hb
  unfold utf8Bytes at hb
  rw [List.mem_flatten] at hb
  obtain ⟨l, hl, hbl⟩ := hb
  rw [List.mem_map] at hl
  obtain ⟨c, _, rfl⟩ := hl
  exact utf8EncodeChar_lt c b hbl

set_option maxRecDepth 4096 in
theorem upperHex_byte : ∀ b < 256, goToUpper (sprintfHex b) = specHexUpperByte b := by
  decide

/-- Counterexample for C5 as stated: the quoted payload holding the single
byte `0x09` is converted to `22,9,22` — the `0x09` entry is rendered with
one digit, not the claimed two-digit form `22,09,22` (the rendering is
`ToUpper (Sprintf "%x" b)`, which does not zero-pad). -/
theorem c5_counterexample :
    convDataStringsToHex [⟨0, "", 0, "$8", .invalidOp, "", .invalidOp, "", "\"\t\"", []⟩]
      = [⟨0, "", 0, "$8", .invalidOp, "", .invalidOp, "", "22,9,22", []⟩]
    ∧ "22,9,22" ≠ goJoin ((utf8Bytes "\"\t\"").map hex2UpperByte) "," :=
  ⟨rfl, by decide⟩

/-- Claim C5 (amended): for every 8-bit data directive whose payload is
wrapped in quote characters, the payload is replaced by one entry per byte
of the payload's raw bytes (the surrounding quote characters included),
each rendered as minimal-width (one- or two-digit) uppercase hex — bytes
below `0x10` render with a single digit. -/
theorem c5_data_string_to_hex (s : srcLine)
    (hm : s.mnemonic = "$8") (hq : isDataString s.data = true) :
    convDataStringsToHex [s]
      = [{ s with data := goJoin ((utf8Bytes s.data).map specHexUpperByte) "," }] := by
  unfold convDataStringsToHex
  simp only [List.map_cons, List.map_nil, hm, hq, directiveTokens, Bool.and_true,
    beq_self_eq_true, if_true]
  unfold dataStringToHex
  have hmap : (utf8Bytes s.data).map (fun b => goToUpper (sprintfHex b))
      = (utf8Bytes s.data).map specHexUpperByte :=
    List.map_congr_left (fun b hb => upperHex_byte b (utf8Bytes_lt s.data b hb))
  rw [hmap]

/-- Witness for C5 at the payload `"A"`. -/
theorem c5_data_string_to_hex_witness :
    convDataStringsToHex [⟨0, "", 0, "$8", .invalidOp, "", .invalidOp, "", "\"A\"", []⟩]
      = [{ (⟨0, "", 0, "$8", .invalidOp, "", .invalidOp, "", "\"A\"", []⟩ : srcLine)
          with data := goJoin ((utf8Bytes "\"A\"").map specHexUpperByte) "," }] :=
  c5_data_string_to_hex ⟨0, "", 0, "$8", .invalidOp, "", .invalidOp, "", "\"A\"", []⟩
    rfl rfl

theorem getSrcLabelAux_spec (lines : List String) :
    ∀ n j, j < n → lines.getD j "" ≠ "" →
      (∀ k, j < k → k < n → lines.getD k "" = "") →
      getSrcLabelAux lines n
        = (if isSrcLabel (lines.getD j "") then lines.getD j "" else "") := by
  intro n
  induction n with
  | zero => intro j hj; omega
  | succ m ih =>
      intro j hj hne hbet
      unfold getSrcLabelAux
      by_cases hjm : j = m
      · subst hjm
        rw [if_pos hne]
      · have hjm2 : j < m := by omega
        have hm : lines.getD m "" = "" := hbet m (by omega) (by omega)
        rw [hm, if_neg (by simp)]
        exact ih j hjm2 hne (fun k h1 h2 => hbet k h1 (by omega))

/-- Claim C6: in the source `foo.bar` / `NO` / `CM $1,foo.bar` the label
`foo.bar` attaches to the `NO` statement, the operand `foo.bar` of the
`CM` statement is replaced by the address assigned to that `NO` statement
(0 at load offset 0) rendered as 4-digit uppercase hex (`0000`), and the
`CM` statement itself carries no label; in general a label attaches to a
statement exactly when the nearest preceding non-empty line is that label
line (if that line is not a label, nothing attaches). -/
theorem c6_label_resolution :
    (c6Resolved = .ok [⟨1, "foo.bar", 0, "NO", .invalidOp, "", .invalidOp, "", "", []⟩,
        ⟨2, "", 1, "CM16", .literalOp, "1", .addressOp, "0000", "", []⟩]
      ∧ goToUpper (sprintf04x 0) = "0000")
    ∧ ∀ (lines : List String) (n j : Nat), j < n → lines.getD j "" ≠ "" →
        (∀ k, j < k → k < n → lines.getD k "" = "") →
        getSrcLabel lines n
          = (if isSrcLabel (lines.getD j "") then lines.getD j "" else "") :=
  ⟨⟨rfl, rfl⟩, fun lines n j h1 h2 h3 => getSrcLabelAux_spec lines n j h1 h2 h3⟩

/-- Witness for C6's attachment rule: for line 2 of the example source the
nearest preceding non-empty line is `NO`, which is not a label, so no
label attaches. -/
theorem c6_label_resolution_witness :
    getSrcLabel c6Src 2
      = (if isSrcLabel (c6Src.getD 1 "") then c6Src.getD 1 "" else "") :=
  c6_label_resolution.2 c6Src 2 1 (by decide) (by decide)
    (fun k h1 h2 => absurd h2 (by omega))

theorem validateDataDirectives_cons {s : srcLine} {rest : List srcLine}
    (h : validateDataDirectives (s :: rest) = .ok true) :
    validateDataDirectives rest = .ok true
    ∧ (s.mnemonic = "$8" → is8BitHexStrings (goSplit s.data ',') = true)
    ∧ (s.mnemonic = "$16" → is16BitHexStrings (goSplit s.data ',') = true) := by
  unfold validateDataDirectives at h
  by_cases h8 : s.mnemonic == directiveTokens .data8BitDirective
  · rw [if_pos h8] at h
    by_cases hv : is8BitHexStrings (goSplit s.data ',')
    · rw [if_pos hv] at h
      have hm : s.mnemonic = "$8" := by simpa [directiveTokens] using h8
      refine ⟨h, fun _ => hv, fun h16 => ?_⟩
      rw [hm] at h16
      exact absurd h16 (by decide)
    · rw [if_neg hv] at h
      simp at h
  · rw [if_neg h8] at h
    by_cases h16 : s.mnemonic == directiveTokens .data16BitDirective
    · rw [if_pos h16] at h
      by_cases hv : is16BitHexStrings (goSplit s.data ',')
      · rw [if_pos hv] at h
        exact ⟨h, fun hm8 => absurd (by simp [directiveTokens, hm8]) h8, fun _ => hv⟩
      · rw [if_neg hv] at h
        simp at h
    · rw [if_neg h16] at h
      exact ⟨h, fun hm8 => absurd (by simp [directiveTokens, hm8]) h8,
        fun hm16 => absurd (by simp [directiveTokens, hm16]) h16⟩

theorem validateOps_cons {s : srcLine} {rest : List srcLine}
    (h : validateOps (s :: rest) = .ok true) :
    validateOps rest = .ok true
    ∧ (isValidDataDirective s.mnemonic = false →
        ((mnemonicD s.mnemonic).numOps = 1 → s.op1 ≠ "")
        ∧ ((mnemonicD s.mnemonic).numOps = 2 → s.op1 ≠ "" ∧ s.op2 ≠ "")
        ∧ (s.op1 ≠ "" → isValidHexString s.op1 = true)
        ∧ (s.op2 ≠ "" → isValidHexString s.op2 = true)) := by
  unfold validateOps at h
  by_cases hd : isValidDataDirective s.mnemonic
  · simp only [hd, Bool.not_true] at h
    rw [if_neg (by simp)] at h
    exact ⟨h, fun hf => absurd hd (by simp [hf])⟩
  · have hd2 : isValidDataDirective s.mnemonic = false := by simpa using hd
    simp only [hd2, Bool.not_false] at h
    rw [if_pos trivial] at h
    by_cases h1 : ((mnemonicD s.mnemonic).numOps == 0 && (s.op1 != "" || s.op2 != ""))
    · rw [if_pos h1] at h; simp at h
    · rw [if_neg h1] at h
      by_cases h2 : ((mnemonicD s.mnemonic).numOps == 1 && (s.op1 == "" || s.op2 != ""))
      · rw [if_pos h2] at h; simp at h
      · rw [if_neg h2] at h
        by_cases h3 : ((mnemonicD s.mnemonic).numOps == 2 && (s.op1 == "" || s.op2 == ""))
        · rw [if_pos h3] at h; simp at h
        · rw [if_neg h3] at h
          by_cases h4 : (s.op1 != "" && !isValidHexString s.op1)
          · rw [if_pos h4] at h; simp at h
          · rw [if_neg h4] at h
            by_cases h5 : (s.op2 != "" && !isValidHexString s.op2)
            · rw [if_pos h5] at h; simp at h
            · rw [if_neg h5] at h
              refine ⟨h, fun _ => ⟨?_, ?_, ?_, ?_⟩⟩
              · intro hn1
                simp only [hn1, beq_self_eq_true, Bool.true_and, Bool.or_eq_true,
                  bne_iff_ne, beq_iff_eq, not_or] at h2
                push_neg at h2
                exact h2.1
              · intro hn2
                simp only [hn2, beq_self_eq_true, Bool.true_and, Bool.or_eq_true,
                  beq_iff_eq, not_or] at h3
                push_neg at h3
                exact h3
              · intro ho1
                by_cases hv : isValidHexString s.op1
                · exact hv
                · exact absurd (by simp [ho1, hv]) h4
              · intro ho2
                by_cases hv : isValidHexString s.op2
                · exact hv
                · exact absurd (by simp [ho2, hv]) h5

/-- Claim C10: for every statement slice that has passed
`validateDataDirectives` and `validateOps`, every value the binary encoder
hands to a hexadecimal parse succeeds — all data values at the directive's
width in `buildData` and all operand words in `buildOps` — so the ignored
error branches are unreachable and no byte is ever encoded from a failed
parse. -/
theorem c10_parse_never_fails (lines : List srcLine)
    (hd : validateDataDirectives lines = .ok true)
    (ho : validateOps lines = .ok true) :
    ∀ s ∈ lines, binParsesOk s = true := by
  induction lines with
  | nil => intro s hs; simp at hs
  | cons a rest ih =>
      obtain ⟨hdr, hd8, hd16⟩ := validateDataDirectives_cons hd
      obtain ⟨hor, hop⟩ := validateOps_cons ho
      intro s hs
      rcases List.mem_cons.mp hs with rfl | hs2
      · unfold binParsesOk
        by_cases hdd : isValidDataDirective s.mnemonic
        · rw [if_pos hdd]
          have hm : s.mnemonic = "$8" ∨ s.mnemonic = "$16" := by
            unfold isValidDataDirective at hdd
            simpa [directiveTokens] using hdd
          rcases hm with hm | hm
          · rw [if_pos (by simp [hm, directiveTokens])]
            have hall := hd8 hm
            unfold is8BitHexStrings at hall
            rw [List.all_eq_true] at hall ⊢
            exact fun d hdm => parse8_ok_of_is8 d (hall d hdm)
          · rw [if_neg (by simp [hm, directiveTokens])]
            have hall := hd16 hm
            unfold is16BitHexStrings at hall
            rw [List.all_eq_true] at hall ⊢
            exact fun d hdm => parse16_ok_of_is16 d (hall d hdm)
        · have hdd2 : isValidDataDirective s.mnemonic = false := by simpa using hdd
          rw [if_neg (by simp [hdd2])]
          obtain ⟨ha1, ha2, hv1, hv2⟩ := hop hdd2
          split
          · next h3 => exact parse16_ok_of_valid _ (hv1 (ha1 (mnemonicD_numOps_of_len3 _ h3)))
          · next h5 =>
              obtain ⟨hne1, hne2⟩ := ha2 (mnemonicD_numOps_of_len5 _ h5)
              rw [Bool.and_eq_true]
              exact ⟨parse16_ok_of_valid _ (hv1 hne1), parse16_ok_of_valid _ (hv2 hne2)⟩
          · rfl
      · exact ih hdr hor s hs2

/-- Witness for C10 at a two-statement program (`RT 1F` and `$8 FF,01`)
that passes both validators. -/
theorem c10_parse_never_fails_witness :
    binParsesOk (⟨0, "", 0, "$8", .invalidOp, "", .invalidOp, "", "FF,01", []⟩ : srcLine)
      = true :=
  c10_parse_never_fails
    [⟨1, "", 0, "RT", .literalOp, "1F", .invalidOp, "", "", []⟩,
     ⟨0, "", 0, "$8", .invalidOp, "", .invalidOp, "", "FF,01", []⟩]
    rfl rfl _ (by simp)
